import Mathlib

/-!
Shallow embedding of the `neos` repository core (src/models.py, src/database.py)
for verification of its natural-language specification.

Modelling conventions:
* Python machine floats are modelled as exact decimal rationals (`PyFloat`):
  the data-file values are plain decimal literals and no claim performs float
  arithmetic, only parsing, copying and comparison against `0.0`/NaN.
  `PyFloat.nan` models `float("nan")`.
* `pyFloat?` models the builtin `float(s)` on the plain decimal grammar the
  data set uses (optional sign, digits, optional fractional part); `none`
  models a raised `ValueError`.
* Attributes that Python may leave unset, or set to `None`, are modelled
  as `Option` fields with `none` for absent; a raised exception during
  construction is modelled by an `Option` result with value `none`.
* The mutual Python object references (a `CloseApproach` holds its NEO and the
  NEO holds a list of its approaches) are modelled as index handles into the
  database's owned lists, as the specification's ownership model prescribes.
-/

/-- A Python float as it occurs in this program: either the NaN sentinel
(`float("nan")`) or an exact decimal value. -/
inductive PyFloat where
  | nan : PyFloat
  | val (q : ℚ) : PyFloat
deriving DecidableEq

/-- Accumulate a list of decimal digit characters into a natural number. -/
def digitsToNat (cs : List Char) : ℕ :=
  cs.foldl (fun acc c => 10 * acc + (c.toNat - 48)) 0

/-- Model of Python's builtin `float(s)` on plain decimal literals
(optional sign, integer part, optional `.` fractional part), which is the
grammar of all numeric fields in the data set.  `none` models the
`ValueError` that `float` raises on a malformed string such as `""`. -/
def pyFloat? (s : String) : Option ℚ :=
  let cs := s.toList
  let signRest : ℚ × List Char :=
    match cs with
    | '-' :: r => (-1, r)
    | '+' :: r => (1, r)
    | r => (1, r)
  let sign := signRest.1
  let rest := signRest.2
  let intPart := rest.takeWhile Char.isDigit
  let afterInt := rest.dropWhile Char.isDigit
  match afterInt with
  | [] =>
      if intPart.isEmpty then none
      else some (sign * (digitsToNat intPart : ℚ))
  | '.' :: frac =>
      if frac.all Char.isDigit && !(intPart.isEmpty && frac.isEmpty) then
        some (sign * ((digitsToNat intPart : ℚ)
          + (digitsToNat frac : ℚ) / (10 : ℚ) ^ frac.length))
      else none
  | _ => none

/-- Python `s.lstrip('"')`-style stripping: drop every leading occurrence of
the character `c`. -/
def lstripChar (s : String) (c : Char) : String :=
  ⟨s.toList.dropWhile (fun x => x = c)⟩

/-- Python `s.rstrip('"')`-style stripping: drop every trailing occurrence of
the character `c`. -/
def rstripChar (s : String) (c : Char) : String :=
  ⟨(s.toList.reverse.dropWhile (fun x => x = c)).reverse⟩

/-- The whitespace characters Python's argumentless `str.strip` removes
(restricted to the ASCII range, which is all the data set contains). -/
def pyIsSpace (c : Char) : Bool :=
  c = ' ' || c = '\t' || c = '\n' || c = '\r' || c = '\x0b' || c = '\x0c'

/-- Python `s.lstrip()`: drop all leading whitespace. -/
def lstripWS (s : String) : String :=
  ⟨s.toList.dropWhile pyIsSpace⟩

/-- Python `s.rstrip()`: drop all trailing whitespace. -/
def rstripWS (s : String) : String :=
  ⟨(s.toList.reverse.dropWhile pyIsSpace).reverse⟩

/-- Python `s.upper()` (ASCII; the hazard flags in the data are ASCII). -/
def pyUpper (s : String) : String :=
  ⟨s.toList.map Char.toUpper⟩

/-- Python `str(b)` on a boolean. -/
def pyStrBool (b : Bool) : String :=
  if b then "True" else "False"

/-! ## src/constants.py -/

def NEO_ID_FIELD : String := "id"
def NEO_PRIMARY_DESIGNATION_FIELD : String := "pdes"
def NEO_NAME_FIELD : String := "name"
def NEO_DIAMETER_FIELD : String := "diameter"
def NEO_HAZARD_FIELD : String := "pha"

def CA_PRIMARY_DESIGNATION_FIELD : String := "des"
def CA_ORBIT_ID : String := "orbit_id"
def CA_TIME_OF_CLOSE_APPROACH_JD : String := "jd"
def CA_TIME_OF_CLOSE_APPROACH_CD_FORMATTED : String := "cd"
def CA_APPROACH_DISTANCE_AU : String := "dist"
def CA_APPROACH_DISTANCE_MIN_AU : String := "dist_min"
def CA_APPROACH_DISTANCE_MAX_AU : String := "dist_max"
def CA_RELATIVE_VELOCITY_TO_APPROACH_BODY_KMS : String := "v_rel"
def CA_RELATIVE_VELOCITY_TO_MASSLESS_BODY_KMS : String := "v_inf"
def CA_THREE_SIGMA_TIME_UNCERTAINTY : String := "t_sigma_f"
def CA_ABSOLUTE_MAGNITUDE : String := "h"

/-! ## src/models.py — NearEarthObject -/

/-- A `NearEarthObject` as its constructor leaves it.  `none` in an `Option`
field models a Python attribute that was never assigned (field absent from
the input pairs) or that was assigned `None` (the absent name).
`approaches` holds index handles into the owning database's approach list. -/
structure NearEarthObject where
  id : Option String := none
  designation : Option String := none
  name : Option String := none
  diameter : Option PyFloat := none
  hazardous : Bool := false
  approaches : List ℕ := []
deriving DecidableEq

/-- `NearEarthObject.neaten_name` (src/models.py lines 96-103): strip every
leading double quote, then every trailing double quote, then leading
whitespace, then trailing whitespace — quotes strictly before whitespace. -/
def neaten_name (name : String) : String :=
  let first := lstripChar name '"'
  let second := rstripChar first '"'
  let third := lstripWS second
  let fourth := rstripWS third
  fourth

/-- One iteration of the `NearEarthObject.__init__` field-dispatch loop
(src/models.py lines 64-91) on a `(data, field)` pair.  `none` models a
raised exception (only the diameter `float` parse can raise).
The hazard branch mirrors the source exactly: the `else` arm at line 91 is
the expression statement `self.hazardous - False`, which assigns nothing. -/
def neoApplyPair (neo : NearEarthObject) (data field : String) :
    Option NearEarthObject :=
  if field = NEO_ID_FIELD then
    some { neo with id := some data }
  else if field = NEO_PRIMARY_DESIGNATION_FIELD then
    some { neo with designation := some data }
  else if field = NEO_NAME_FIELD then
    let formatted := neaten_name data
    some { neo with name := if formatted.length = 0 then none else some formatted }
  else if field = NEO_DIAMETER_FIELD then
    if data.length = 0 then
      some { neo with diameter := some PyFloat.nan }
    else
      (pyFloat? data).map (fun q => { neo with diameter := some (PyFloat.val q) })
  else if field = NEO_HAZARD_FIELD then
    if pyUpper data = "Y" then
      some { neo with hazardous := true }
    else
      some neo
  else
    some neo

/-- The `NearEarthObject.__init__` loop over all `(data, field)` pairs. -/
def neoLoop (neo : NearEarthObject) : List (String × String) →
    Option NearEarthObject
  | [] => some neo
  | (data, field) :: rest =>
    match neoApplyPair neo data field with
    | some neo2 => neoLoop neo2 rest
    | none => none

/-- `NearEarthObject.__init__` (src/models.py lines 58-94): `hazardous` is
initialised to `False` before the loop and `approaches` to the empty list
after it; everything else starts unset. -/
def mkNEO? (pairs : List (String × String)) : Option NearEarthObject :=
  (neoLoop { hazardous := false } pairs).map
    (fun neo => { neo with approaches := [] })

/-- `NearEarthObject.fullname` (src/models.py lines 105-108):
`self.designation + "::" + self.name`.  When either attribute is absent the
string concatenation raises (`TypeError` on `None`, `AttributeError` when
unset), modelled by `none`. -/
def NearEarthObject.fullname (neo : NearEarthObject) : Option String :=
  match neo.designation, neo.name with
  | some d, some n => some (d ++ "::" ++ n)
  | _, _ => none

/-! ## src/models.py — CloseApproach -/

/-- A `CloseApproach` as its constructor leaves it.  `none` models an
attribute that was never assigned (its field absent from the input pairs),
or `None`.  `neo` is an index handle into the owning database's NEO list.
`time` keeps the raw calendar-date string: `cd_to_datetime` lives in
`helpers.py`, which is not part of the core sources; the specification says
the datetime round-trips the same minute-precision calendar grammar, so the
string is an adequate stand-in (no claim inspects the datetime's parts). -/
structure CloseApproach where
  designationFK : Option String := none
  orbit_id : Option String := none
  jd_time : Option PyFloat := none
  time : Option String := none
  distance : Option PyFloat := none
  approach_distance_min : Option PyFloat := none
  approach_distance_max : Option PyFloat := none
  velocity : Option PyFloat := none
  velocity_to_massless_body : Option PyFloat := none
  time_uncertainty : Option String := none
  magnitude : PyFloat := PyFloat.val 0
  neo : Option ℕ := none
deriving DecidableEq

/-- One iteration of the `CloseApproach.__init__` field-dispatch loop
(src/models.py lines 164-198) on a `(data, header)` pair.  `data` is an
`Option String` because the JSON records carry nulls; `none` as the result
models a raised exception.  Notable source points mirrored here:
* `jd`, `dist`, `dist_min` parse with no fallback (raise on `None`/malformed);
* `dist_max`, `v_rel`, `v_inf` map null or empty data to `0.0`;
* the `h` branch with non-null data is the expression statement
  `self.magnitude == float(data)` (source line 196): it evaluates
  `float(data)` (and so can raise) but assigns nothing, leaving
  `magnitude` unchanged; with null data it assigns `0.0`. -/
def caApplyPair (ca : CloseApproach) (data : Option String) (header : String) :
    Option CloseApproach :=
  if header = CA_PRIMARY_DESIGNATION_FIELD then
    some { ca with designationFK := data }
  else if header = CA_ORBIT_ID then
    some { ca with orbit_id := data }
  else if header = CA_TIME_OF_CLOSE_APPROACH_JD then
    (data.bind pyFloat?).map (fun q => { ca with jd_time := some (PyFloat.val q) })
  else if header = CA_TIME_OF_CLOSE_APPROACH_CD_FORMATTED then
    data.map (fun s => { ca with time := some s })
  else if header = CA_APPROACH_DISTANCE_AU then
    (data.bind pyFloat?).map (fun q => { ca with distance := some (PyFloat.val q) })
  else if header = CA_APPROACH_DISTANCE_MIN_AU then
    (data.bind pyFloat?).map
      (fun q => { ca with approach_distance_min := some (PyFloat.val q) })
  else if header = CA_APPROACH_DISTANCE_MAX_AU then
    match data with
    | none => some { ca with approach_distance_max := some (PyFloat.val 0) }
    | some s =>
      if s.length = 0 then some { ca with approach_distance_max := some (PyFloat.val 0) }
      else (pyFloat? s).map (fun q => { ca with approach_distance_max := some (PyFloat.val q) })
  else if header = CA_RELATIVE_VELOCITY_TO_APPROACH_BODY_KMS then
    match data with
    | none => some { ca with velocity := some (PyFloat.val 0) }
    | some s =>
      if s.length = 0 then some { ca with velocity := some (PyFloat.val 0) }
      else (pyFloat? s).map (fun q => { ca with velocity := some (PyFloat.val q) })
  else if header = CA_RELATIVE_VELOCITY_TO_MASSLESS_BODY_KMS then
    match data with
    | none => some { ca with velocity_to_massless_body := some (PyFloat.val 0) }
    | some s =>
      if s.length = 0 then
        some { ca with velocity_to_massless_body := some (PyFloat.val 0) }
      else (pyFloat? s).map
        (fun q => { ca with velocity_to_massless_body := some (PyFloat.val q) })
  else if header = CA_THREE_SIGMA_TIME_UNCERTAINTY then
    some { ca with time_uncertainty := data }
  else if header = CA_ABSOLUTE_MAGNITUDE then
    match data with
    | some s => (pyFloat? s).map (fun _ => ca)
    | none => some { ca with magnitude := PyFloat.val 0 }
  else
    some ca

/-- The `CloseApproach.__init__` loop over all `(data, header)` pairs. -/
def caLoop (ca : CloseApproach) : List (Option String × String) →
    Option CloseApproach
  | [] => some ca
  | (data, header) :: rest =>
    match caApplyPair ca data header with
    | some ca2 => caLoop ca2 rest
    | none => none

/-- `CloseApproach.__init__` (src/models.py lines 157-205): `magnitude` is
initialised to `0.0` before the loop; after it, `velocity` is forced to
`0.0` when no velocity field was ever seen, and the NEO reference starts
absent. -/
def mkCA? (pairs : List (Option String × String)) : Option CloseApproach :=
  (caLoop { magnitude := PyFloat.val 0 } pairs).map (fun ca =>
    { ca with
      velocity := match ca.velocity with
        | none => some (PyFloat.val 0)
        | some v => some v
      neo := none })

/-- `datetime_to_str` lives in `helpers.py`, not among the core sources.
Modelled from the spec: it renders the UTC datetime back into the same
minute-precision calendar grammar it was parsed from (a round trip), so on
our raw-string model of the datetime it is the identity. -/
def datetime_to_str (t : String) : String := t

/-- One value slot of the serialized-approach dictionary: the source stores
strings in some slots and raw floats in others (`diameter` is a float for a
linked approach but the literal string `"nan"` for an unlinked one). -/
inductive SVal where
  | str (s : String) : SVal
  | flt (x : PyFloat) : SVal
deriving DecidableEq

/-- The dictionary built by `CloseApproach.serialize` (src/models.py lines
234-263).  `neoKey` records whether the `"neo"` key was set (it is set only
for a linked approach). -/
structure SerializedApproach where
  datetime_utc : String
  distance_au : PyFloat
  velocity_km_s : PyFloat
  designationOut : String
  neoKey : Bool
  nameOut : String
  diameterOut : SVal
  hazardousOut : String
deriving DecidableEq

/-- `CloseApproach.serialize` (src/models.py lines 234-263).  The method
reads `self.neo`; here the dereferenced NEO (through the index handle) is
passed as `neoRef`.  Reading an unset attribute of the approach, or the
`diameter` of a linked NEO that never had it assigned, raises
(`AttributeError`), modelled by `none`.  For an unlinked approach
(`self.neo` falsy) the source substitutes `""` for the name, the literal
string `"nan"` for the diameter, and `"False"` for the hazard flag. -/
def serializeCA (ca : CloseApproach) (neoRef : Option NearEarthObject) :
    Option SerializedApproach := do
  let t ← ca.time
  let dist ← ca.distance
  let vel ← ca.velocity
  let des ← ca.designationFK
  match neoRef with
  | some neo => do
    let d ← neo.diameter
    pure
      { datetime_utc := datetime_to_str t
        distance_au := dist
        velocity_km_s := vel
        designationOut := des
        neoKey := true
        nameOut := match neo.name with | some n => n | none => ""
        diameterOut := SVal.flt d
        hazardousOut := pyStrBool neo.hazardous }
  | none =>
    pure
      { datetime_utc := datetime_to_str t
        distance_au := dist
        velocity_km_s := vel
        designationOut := des
        neoKey := false
        nameOut := ""
        diameterOut := SVal.str "nan"
        hazardousOut := "False" }

/-! ## src/database.py — NEODatabase -/

/-- `dict.get(k, None)` on a Python dict modelled as an insertion-ordered
association list: a later insertion of the same key overwrites an earlier
one, so lookup prefers the entry furthest down the list.  Keys are
`Option String` because Python happily uses `None` as a dict key (the name
index does exactly that for unnamed NEOs). -/
def dictGet? (m : List (Option String × ℕ)) (k : Option String) : Option ℕ :=
  match m with
  | [] => none
  | (k0, v0) :: rest =>
    match dictGet? rest k with
    | some v => some v
    | none => if k = k0 then some v0 else none

/-- The `for idx, neo in enumerate(self._neos)` loop shared by both index
builders: insert `(key neo, idx)` for every NEO, indices counted from
`base`. -/
def buildIdxMap (key : NearEarthObject → Option String) (base : ℕ) :
    List NearEarthObject → List (Option String × ℕ)
  | [] => []
  | neo :: rest => (key neo, base) :: buildIdxMap key (base + 1) rest

/-- `NEODatabase.create_neo_designation_index_map` (src/database.py lines
62-74): one entry per NEO keyed by its designation. -/
def create_neo_designation_index_map (neos : List NearEarthObject) :
    List (Option String × ℕ) :=
  buildIdxMap (fun neo => neo.designation) 0 neos

/-- `NEODatabase.create_neo_name_index_map` (src/database.py lines 76-88):
one entry per NEO keyed by `neo.name` — including NEOs whose name is absent,
which are inserted under the `None` key exactly as the source does. -/
def create_neo_name_index_map (neos : List NearEarthObject) :
    List (Option String × ℕ) :=
  buildIdxMap (fun neo => neo.name) 0 neos

/-- Replace the element at position `i` by `f` of it; out-of-range leaves the
list unchanged (the source never goes out of range: the maps only hold
indices produced by `enumerate`). -/
def listModify : List α → ℕ → (α → α) → List α
  | [], _, _ => []
  | x :: rest, 0, f => f x :: rest
  | x :: rest, n + 1, f => x :: listModify rest n f

/-- The `for approach in self._approaches` linking loop of
`NEODatabase.__init__` (src/database.py lines 54-60), written with an
accumulator: `done` holds the already-processed approaches (so
`done.length` is the index handle of the approach being processed), and on
a designation-map hit the approach's `neo` handle is set and the handle is
appended to that NEO's `approaches`. -/
def linkLoop (dmap : List (Option String × ℕ)) :
    List NearEarthObject → List CloseApproach → List CloseApproach →
    List NearEarthObject × List CloseApproach
  | neos, done, [] => (neos, done)
  | neos, done, a :: rest =>
    match dictGet? dmap a.designationFK with
    | some j =>
      linkLoop dmap
        (listModify neos j
          (fun neo => { neo with approaches := neo.approaches ++ [done.length] }))
        (done ++ [{ a with neo := some j }]) rest
    | none => linkLoop dmap neos (done ++ [a]) rest

/-- The linked store.  The two index maps are built (in this order) before
the linking pass, as in the source constructor. -/
structure NEODatabase where
  neosArr : List NearEarthObject
  approachesArr : List CloseApproach
  designation_index_map : List (Option String × ℕ)
  name_to_index_map : List (Option String × ℕ)
deriving DecidableEq

/-- `NEODatabase.__init__` (src/database.py lines 25-60): store both
collections, build the designation index, build the name index, then run
the linking pass over the approaches. -/
def mkDatabase (neos : List NearEarthObject) (approaches : List CloseApproach) :
    NEODatabase :=
  let dmap := create_neo_designation_index_map neos
  let nmap := create_neo_name_index_map neos
  let linked := linkLoop dmap neos [] approaches
  { neosArr := linked.1
    approachesArr := linked.2
    designation_index_map := dmap
    name_to_index_map := nmap }

/-- `NEODatabase.get_neo_by_designation` (src/database.py lines 90-109):
look the designation up in the designation index and return the NEO stored
at that position, or `None` on a miss. -/
def get_neo_by_designation (db : NEODatabase) (designation : Option String) :
    Option NearEarthObject :=
  match dictGet? db.designation_index_map designation with
  | some idx => db.neosArr.get? idx
  | none => none

/-- `NEODatabase.get_neo_by_name` (src/database.py lines 111-130): look the
name up in the name index and return the NEO stored at that position, or
`None` on a miss. -/
def get_neo_by_name (db : NEODatabase) (name : Option String) :
    Option NearEarthObject :=
  match dictGet? db.name_to_index_map name with
  | some idx => db.neosArr.get? idx
  | none => none

/-! ## src/database.py — query engine -/

/-- The inner `for filter in filters` loop of `NEODatabase.query`
(src/database.py lines 152-159): `passes` starts `False`; a passing filter
sets it `True` and continues, a failing filter sets it `False` and breaks. -/
def filterLoop (a : CloseApproach) (passes : Bool) :
    List (CloseApproach → Bool) → Bool
  | [] => passes
  | f :: rest => if f a then filterLoop a true rest else false

/-- Whether the query loop yields approach `a` under `filters`: the value of
`passes_filter` after the inner loop. -/
def passesFilters (filters : List (CloseApproach → Bool)) (a : CloseApproach) :
    Bool :=
  filterLoop a false filters

/-- How many filters the inner loop invokes on `a`: each iteration calls its
filter once, and the loop breaks at the first failing filter. -/
def filterEvalCount (a : CloseApproach) : List (CloseApproach → Bool) → ℕ
  | [] => 0
  | f :: rest => if f a then 1 + filterEvalCount a rest else 1

/-- `NEODatabase.query` (src/database.py lines 132-162), with the generator's
yield sequence materialised as a list.  The source has no `return` after the
empty-filter loop, so the second loop always runs; with empty filters it
yields nothing because `passes_filter` is initialised `False` and the inner
loop never runs. -/
def queryList (db : NEODatabase) (filters : List (CloseApproach → Bool)) :
    List CloseApproach :=
  (if filters.length = 0 then db.approachesArr else [])
    ++ db.approachesArr.filter (fun a => passesFilters filters a)

/-! ## Helper lemmas -/

lemma passesFilters_nil (a : CloseApproach) : passesFilters [] a = false := rfl

lemma query_nil_eq (db : NEODatabase) : queryList db [] = db.approachesArr := by
  simp [queryList, passesFilters, filterLoop]

lemma filterLoop_true (a : CloseApproach) (fs : List (CloseApproach → Bool)) :
    filterLoop a true fs = fs.all (fun f => f a) := by
  induction fs with
  | nil => rfl
  | cons f rest ih =>
    simp only [filterLoop, List.all_cons]
    cases h : f a <;> simp [h, ih]

lemma passesFilters_cons (f : CloseApproach → Bool)
    (fs : List (CloseApproach → Bool)) (a : CloseApproach) :
    passesFilters (f :: fs) a = (f :: fs).all (fun g => g a) := by
  simp only [passesFilters, filterLoop, List.all_cons]
  cases h : f a <;> simp [h, filterLoop_true]

lemma query_cons_eq (db : NEODatabase) (f : CloseApproach → Bool)
    (fs : List (CloseApproach → Bool)) :
    queryList db (f :: fs)
      = db.approachesArr.filter (fun a => (f :: fs).all (fun g => g a)) := by
  simp only [queryList, List.length_cons]
  rw [if_neg (by omega)]
  simp only [List.nil_append]
  congr 1
  funext a
  exact passesFilters_cons f fs a

/-! ## Claim theorems -/

/-- C1: for every Store, `query` with an empty filter collection yields the
Store's approach list itself — every Approach in internal order exactly
once, with nothing yielded afterwards.  (The fall-through loop after the
empty-filter loop contributes nothing: `passes_filter` starts `False` and
the inner loop never runs.) -/
theorem query_empty_yields_all (db : NEODatabase) :
    queryList db [] = db.approachesArr :=
  query_nil_eq db

/-- C2 (counterexample): the raw name of two spaces, a double-quoted `Eros`
and a trailing space does NOT yield the name `Eros`: because quotes are
stripped strictly before whitespace, the quotes survive inside the
whitespace padding and the resulting name is `"Eros"` with the quote
characters retained. -/
theorem name_example_cx :
    (mkNEO? [("  \"Eros\" ", NEO_NAME_FIELD)]).map (fun n => n.name)
        = some (some "\"Eros\"")
      ∧ ¬ (mkNEO? [("  \"Eros\" ", NEO_NAME_FIELD)]).map (fun n => n.name)
        = some (some "Eros") := by
  constructor
  · rfl
  · decide

/-- C2 (amended): Object construction trims surrounding double quotes and
then surrounding whitespace, in that order, and a zero-length trimmed
result makes the name absent.  Consequently the raw name
`"  \"Eros\" "` yields `"\"Eros\""` — the quotes are retained because they
were shielded by the whitespace that is stripped only afterwards — while
the empty string or a bare pair of double quotes yields an absent name. -/
theorem name_normalization_amended :
    (∀ v : String,
      (mkNEO? [(v, NEO_NAME_FIELD)]).map (fun n => n.name)
        = some
          (let t := rstripWS (lstripWS (rstripChar (lstripChar v '"') '"'))
           if t.length = 0 then none else some t))
      ∧ (mkNEO? [("  \"Eros\" ", NEO_NAME_FIELD)]).map (fun n => n.name)
          = some (some "\"Eros\"")
      ∧ (mkNEO? [("", NEO_NAME_FIELD)]).map (fun n => n.name) = some none
      ∧ (mkNEO? [("\"\"", NEO_NAME_FIELD)]).map (fun n => n.name) = some none := by
  refine ⟨fun v => ?_, rfl, rfl, rfl⟩
  simp [mkNEO?, neoLoop, neoApplyPair, NEO_ID_FIELD, NEO_NAME_FIELD,
    NEO_PRIMARY_DESIGNATION_FIELD, neaten_name]

/-- C3 (code-evaluation): the absolute-magnitude branch of the Approach
constructor never stores the parsed value — source line 196 reads
`self.magnitude == float(data)`, a comparison whose result is discarded —
so a present value `"18.2"` leaves `magnitude` at its initial `0.0`
instead of `18.2`; and an empty value raises `ValueError` from
`float("")` instead of producing `0.0`. -/
theorem magnitude_dropped_eval :
    (mkCA? [(some "18.2", CA_ABSOLUTE_MAGNITUDE)]).map (fun c => c.magnitude)
        = some (PyFloat.val 0)
      ∧ mkCA? [(some "", CA_ABSOLUTE_MAGNITUDE)] = none := by
  constructor
  · rfl
  · rfl

/-- C4 (code-evaluation): the name index is NOT restricted to Objects with
a present name — an Object whose name is absent is inserted under the
`None` key (source line 86 maps `neo.name` unconditionally), and a name
lookup with the absent name then returns that Object, contradicting both
the claim and the method's own docstring ("No NEOs are associated with
... the `None` singleton"). -/
theorem name_index_absent_name_eval :
    (mkDatabase
        [{ designation := some "433", diameter := some (PyFloat.val 2) }]
        []).name_to_index_map = [(none, 0)]
      ∧ get_neo_by_name
          (mkDatabase
            [{ designation := some "433", diameter := some (PyFloat.val 2) }]
            []) none
        = some { designation := some "433", diameter := some (PyFloat.val 2) } := by
  constructor
  · rfl
  · rfl

/-- C10: `fullname` concatenates designation, `"::"` and the name
unconditionally, so it fails (string concatenation with `None`) whenever
the name is absent, and it returns a string only when the name is
present. -/
theorem fullname_requires_name (neo : NearEarthObject) :
    (neo.name = none → neo.fullname = none)
      ∧ (neo.fullname.isSome → neo.name.isSome) := by
  constructor
  · intro h
    cases hd : neo.designation <;> simp [NearEarthObject.fullname, h, hd]
  · intro h
    cases hn : neo.name with
    | some n => simp
    | none =>
      cases hd : neo.designation <;>
        simp [NearEarthObject.fullname, hn, hd] at h

/-- C10 witness: a concrete Object with designation `"433"` and absent name
has no fullname. -/
theorem fullname_requires_name_w :
    ({ designation := some "433" } : NearEarthObject).fullname = none :=
  (fullname_requires_name { designation := some "433" }).1 rfl

lemma neoApplyPair_hazardous (neo : NearEarthObject) (data field : String)
    (neo1 : NearEarthObject) (h : neoApplyPair neo data field = some neo1) :
    neo1.hazardous
      = (neo.hazardous
          || (decide (field = NEO_HAZARD_FIELD) && decide (pyUpper data = "Y"))) := by
  unfold neoApplyPair at h
  split_ifs at h with h1 h2 h3 h4 h5 h6 h7 <;>
    first
      | (rcases Option.map_eq_some'.mp h with ⟨q, hq, rfl⟩
         simp_all [NEO_ID_FIELD, NEO_PRIMARY_DESIGNATION_FIELD, NEO_NAME_FIELD,
           NEO_DIAMETER_FIELD, NEO_HAZARD_FIELD])
      | (cases h
         simp_all [NEO_ID_FIELD, NEO_PRIMARY_DESIGNATION_FIELD, NEO_NAME_FIELD,
           NEO_DIAMETER_FIELD, NEO_HAZARD_FIELD])

lemma neoLoop_hazardous (pairs : List (String × String)) :
    ∀ (neo neo2 : NearEarthObject), neoLoop neo pairs = some neo2 →
      neo2.hazardous
        = (neo.hazardous
            || pairs.any (fun p =>
                decide (p.2 = NEO_HAZARD_FIELD) && decide (pyUpper p.1 = "Y"))) := by
  induction pairs with
  | nil =>
    intro neo neo2 h
    cases h
    simp
  | cons p rest ih =>
    obtain ⟨data, field⟩ := p
    intro neo neo2 h
    simp only [neoLoop] at h
    cases hap : neoApplyPair neo data field with
    | none => rw [hap] at h; cases h
    | some neo1 =>
      rw [hap] at h
      rw [ih neo1 neo2 h, neoApplyPair_hazardous neo data field neo1 hap]
      simp [List.any_cons, Bool.or_assoc]

/-- C8: Object construction sets `hazardous` true exactly when some
hazard-field pair carries a value whose uppercase form equals `"Y"`; with a
single hazard pair of value `v` this is `upper v = "Y"`, and with no hazard
pair at all `hazardous` stays at its initialised `false`.  (The `else` arm
at source line 91 is the no-op expression `self.hazardous - False`, so
non-"Y" values leave the flag untouched — which is `false` unless an
earlier pair already set it.) -/
theorem hazardous_iff_upper_Y (pairs : List (String × String))
    (neo : NearEarthObject) (h : mkNEO? pairs = some neo) :
    neo.hazardous
      = pairs.any (fun p =>
          decide (p.2 = NEO_HAZARD_FIELD) && decide (pyUpper p.1 = "Y")) := by
  unfold mkNEO? at h
  rcases Option.map_eq_some'.mp h with ⟨neo1, h1, rfl⟩
  have := neoLoop_hazardous pairs { hazardous := false } neo1 h1
  simpa using this

/-- C8 witness: constructing from the single pair `("y", "pha")` yields the
hazardous flag on, matching the characterization at that input. -/
theorem hazardous_iff_upper_Y_w :
    ({ hazardous := true } : NearEarthObject).hazardous
      = [(("y" : String), NEO_HAZARD_FIELD)].any (fun p =>
          decide (p.2 = NEO_HAZARD_FIELD) && decide (pyUpper p.1 = "Y")) :=
  hazardous_iff_upper_Y [("y", NEO_HAZARD_FIELD)] { hazardous := true } (by decide)

lemma filterEvalCount_first_false (a : CloseApproach) :
    ∀ (fs : List (CloseApproach → Bool)) (i : ℕ) (hi : i < fs.length),
      (∀ k (hk : k < i), fs.get ⟨k, Nat.lt_trans hk hi⟩ a = true) →
      fs.get ⟨i, hi⟩ a = false → filterEvalCount a fs = i + 1 := by
  intro fs
  induction fs with
  | nil => intro i hi; exact absurd hi (by simp)
  | cons f rest ih =>
    intro i hi hpre hfail
    cases i with
    | zero =>
      have hf : f a = false := hfail
      simp [filterEvalCount, hf]
    | succ n =>
      have hf : f a = true := hpre 0 (Nat.succ_pos n)
      have hn : n < rest.length := Nat.lt_of_succ_lt_succ hi
      have htail : filterEvalCount a rest = n + 1 :=
        ih n hn (fun k hk => hpre (k + 1) (Nat.succ_lt_succ hk)) hfail
      simp [filterEvalCount, hf, htail]
      omega

/-- The database and filter list used for the C5 counterexample and witness:
a store holding one (default-field) approach, and the single always-true
filter. -/
def dbC5 : NEODatabase := mkDatabase [] [{}]

def fsC5 : List (CloseApproach → Bool) := [fun _ => true]

/-- C5 (counterexample): with a filter every Approach passes, the filtered
query result equals the empty-filter result, so it is not a STRICT subset
of it (and the store is not empty, so the equality is not vacuous). -/
theorem query_strict_subset_cx :
    queryList dbC5 fsC5 = queryList dbC5 []
      ∧ (queryList dbC5 []).length = 1 := by
  constructor <;> rfl

/-- C5 (amended): for a non-empty filter collection, `query` yields exactly
the Approaches (in Store order) on which every filter evaluates true;
every non-yielded Approach fails at least one filter; the result is a
subset — not necessarily strict — of the empty-filter result; and
evaluation follows the given filter order and short-circuits at the first
failing filter, so when filter `i` is the first to reject an Approach,
exactly `i + 1` filters are invoked on it and no later filter is
evaluated. -/
theorem query_filters_amended (db : NEODatabase)
    (fs : List (CloseApproach → Bool)) (hfs : fs ≠ []) :
    queryList db fs = db.approachesArr.filter (fun a => fs.all (fun f => f a))
      ∧ (∀ a ∈ queryList db fs, ∀ f ∈ fs, f a = true)
      ∧ (∀ a ∈ db.approachesArr, a ∉ queryList db fs → ∃ f ∈ fs, f a = false)
      ∧ (queryList db fs).Sublist (queryList db [])
      ∧ (∀ (a : CloseApproach) (i : ℕ) (hi : i < fs.length),
          (∀ k (hk : k < i), fs.get ⟨k, Nat.lt_trans hk hi⟩ a = true) →
          fs.get ⟨i, hi⟩ a = false → filterEvalCount a fs = i + 1) := by
  cases fs with
  | nil => exact absurd rfl hfs
  | cons f rest =>
    have hq := query_cons_eq db f rest
    refine ⟨hq, ?_, ?_, ?_, ?_⟩
    · intro a ha g hg
      rw [hq] at ha
      exact List.all_eq_true.mp (List.mem_filter.mp ha).2 g hg
    · intro a ha hna
      by_contra hcon
      push_neg at hcon
      apply hna
      rw [hq]
      refine List.mem_filter.mpr ⟨ha, List.all_eq_true.mpr fun g hg => ?_⟩
      cases hga : g a with
      | true => rfl
      | false => exact absurd hga (hcon g hg)
    · rw [hq, query_nil_eq db]
      exact List.filter_sublist _
    · exact fun a i hi hpre hfail =>
        filterEvalCount_first_false a (f :: rest) i hi hpre hfail

/-- The handles (counted from `base`) of the approaches in `l` whose
designation resolves to NEO index `j`: the final `approaches` list of NEO
`j` after the linking pass (proof-side description, see
`linkLoop_fst_get?`). -/
def matchedIdx (dmap : List (Option String × ℕ)) (j : ℕ) (base : ℕ) :
    List CloseApproach → List ℕ
  | [] => []
  | a :: rest =>
    (if dictGet? dmap a.designationFK = some j then [base] else [])
      ++ matchedIdx dmap j (base + 1) rest

/-- The per-approach effect of a linking iteration on the approach itself. -/
def linkApproach (dmap : List (Option String × ℕ)) (a : CloseApproach) :
    CloseApproach :=
  match dictGet? dmap a.designationFK with
  | some j => { a with neo := some j }
  | none => a

lemma listModify_get?_self (l : List α) (i : ℕ) (f : α → α) :
    (listModify l i f).get? i = (l.get? i).map f := by
  induction l generalizing i with
  | nil => simp [listModify]
  | cons x rest ih =>
    cases i with
    | zero => simp [listModify]
    | succ n => simpa [listModify] using ih n

lemma listModify_get?_other (l : List α) (i k : ℕ) (f : α → α) (h : k ≠ i) :
    (listModify l i f).get? k = l.get? k := by
  induction l generalizing i k with
  | nil => simp [listModify]
  | cons x rest ih =>
    cases i with
    | zero =>
      cases k with
      | zero => exact absurd rfl h
      | succ m => simp [listModify]
    | succ n =>
      cases k with
      | zero => simp [listModify]
      | succ m =>
        simpa [listModify] using ih n m (fun hh => h (by rw [hh]))

lemma linkLoop_snd (dmap : List (Option String × ℕ)) :
    ∀ (rest : List CloseApproach) (neos : List NearEarthObject)
      (done : List CloseApproach),
      (linkLoop dmap neos done rest).2
        = done ++ rest.map (linkApproach dmap) := by
  intro rest
  induction rest with
  | nil => intro neos done; simp [linkLoop]
  | cons a rest ih =>
    intro neos done
    cases hd : dictGet? dmap a.designationFK with
    | some j =>
      simp only [linkLoop, hd]
      rw [ih]
      simp [linkApproach, hd]
    | none =>
      simp only [linkLoop, hd]
      rw [ih]
      simp [linkApproach, hd]

lemma linkLoop_fst_get? (dmap : List (Option String × ℕ)) :
    ∀ (rest : List CloseApproach) (neos : List NearEarthObject)
      (done : List CloseApproach) (j : ℕ),
      ((linkLoop dmap neos done rest).1).get? j
        = (neos.get? j).map (fun neo =>
            { neo with approaches :=
                neo.approaches ++ matchedIdx dmap j done.length rest }) := by
  intro rest
  induction rest with
  | nil =>
    intro neos done j
    simp only [linkLoop, matchedIdx]
    cases neos.get? j <;> simp
  | cons a rest ih =>
    intro neos done j
    cases hd : dictGet? dmap a.designationFK with
    | some j0 =>
      simp only [linkLoop, hd]
      rw [ih]
      by_cases hj : j = j0
      · subst hj
        rw [listModify_get?_self]
        simp only [matchedIdx, hd, if_pos rfl]
        cases neos.get? j <;>
          simp [List.append_assoc, List.length_append]
      · rw [listModify_get?_other _ _ _ _ hj]
        simp only [matchedIdx, hd]
        have hne : ¬ ((some j0 : Option ℕ) = some j) := by
          simp [Ne.symm hj]
        rw [if_neg hne]
        cases neos.get? j <;> simp [List.length_append]
    | none =>
      simp only [linkLoop, hd]
      rw [ih]
      simp only [matchedIdx, hd]
      rw [if_neg (by simp)]
      cases neos.get? j <;> simp [List.length_append]

lemma dictGet?_mem (key : NearEarthObject → Option String) :
    ∀ (neos : List NearEarthObject) (base : ℕ) (d : Option String) (j : ℕ),
      dictGet? (buildIdxMap key base neos) d = some j →
      ∃ k neo, neos.get? k = some neo ∧ key neo = d ∧ j = base + k := by
  intro neos
  induction neos with
  | nil => intro base d j h; simp [buildIdxMap, dictGet?] at h
  | cons neo0 rest ih =>
    intro base d j h
    simp only [buildIdxMap, dictGet?] at h
    cases hr : dictGet? (buildIdxMap key (base + 1) rest) d with
    | some v =>
      rw [hr] at h
      cases h
      obtain ⟨k, neo, hget, hkey, hkv⟩ := ih (base + 1) d _ hr
      exact ⟨k + 1, neo, by simpa using hget, hkey, by omega⟩
    | none =>
      rw [hr] at h
      split_ifs at h with hk
      cases h
      exact ⟨0, neo0, rfl, hk.symm, by omega⟩

lemma dictGet?_not_mem (key : NearEarthObject → Option String) :
    ∀ (neos : List NearEarthObject) (base : ℕ) (d : Option String),
      d ∉ neos.map key → dictGet? (buildIdxMap key base neos) d = none := by
  intro neos
  induction neos with
  | nil => intro base d _; rfl
  | cons neo0 rest ih =>
    intro base d h
    simp only [List.map_cons, List.mem_cons, not_or] at h
    simp only [buildIdxMap, dictGet?]
    rw [ih (base + 1) d h.2]
    simp [h.1]

lemma dictGet?_mem_isSome (key : NearEarthObject → Option String) :
    ∀ (neos : List NearEarthObject) (base : ℕ) (d : Option String),
      d ∈ neos.map key →
      (dictGet? (buildIdxMap key base neos) d).isSome := by
  intro neos
  induction neos with
  | nil => simp
  | cons neo0 rest ih =>
    intro base d h
    simp only [List.map_cons, List.mem_cons] at h
    simp only [buildIdxMap, dictGet?]
    cases hr : dictGet? (buildIdxMap key (base + 1) rest) d with
    | some v => simp
    | none =>
      rcases h with h | h
      · simp [h]
      · have := ih (base + 1) d h
        rw [hr] at this
        simp at this

lemma dictGet?_nodup (key : NearEarthObject → Option String) :
    ∀ (neos : List NearEarthObject) (base k : ℕ) (neo : NearEarthObject),
      (neos.map key).Nodup → neos.get? k = some neo →
      dictGet? (buildIdxMap key base neos) (key neo) = some (base + k) := by
  intro neos
  induction neos with
  | nil => intro base k neo _ h; simp at h
  | cons neo0 rest ih =>
    intro base k neo hnd hget
    rw [List.map_cons, List.nodup_cons] at hnd
    simp only [buildIdxMap, dictGet?]
    cases k with
    | zero =>
      cases hget
      rw [dictGet?_not_mem key rest (base + 1) (key neo0) hnd.1]
      simp
    | succ m =>
      rw [ih (base + 1) m neo hnd.2 (by simpa using hget)]
      have : base + 1 + m = base + (m + 1) := by omega
      rw [this]

lemma matchedIdx_mem_le (dmap : List (Option String × ℕ)) (j : ℕ) :
    ∀ (l : List CloseApproach) (base x : ℕ),
      x ∈ matchedIdx dmap j base l → base ≤ x := by
  intro l
  induction l with
  | nil => simp [matchedIdx]
  | cons a rest ih =>
    intro base x hx
    simp only [matchedIdx, List.mem_append] at hx
    rcases hx with hx | hx
    · split_ifs at hx with hc
      · simp at hx; omega
      · simp at hx
    · have := ih (base + 1) x hx; omega

lemma matchedIdx_count (dmap : List (Option String × ℕ)) (j : ℕ) :
    ∀ (l : List CloseApproach) (base i : ℕ) (a : CloseApproach),
      l.get? i = some a →
      (matchedIdx dmap j base l).count (base + i)
        = if dictGet? dmap a.designationFK = some j then 1 else 0 := by
  intro l
  induction l with
  | nil => intro base i a h; simp at h
  | cons a0 rest ih =>
    intro base i a hget
    cases i with
    | zero =>
      cases hget
      simp only [matchedIdx]
      rw [List.count_append]
      have hnot : (base + 0) ∉ matchedIdx dmap j (base + 1) rest := by
        intro hm
        have := matchedIdx_mem_le dmap j rest (base + 1) _ hm
        omega
      rw [List.count_eq_zero.mpr hnot]
      split_ifs with hc <;> simp
    | succ m =>
      simp only [matchedIdx]
      rw [List.count_append]
      have h0 :
          ((if dictGet? dmap a0.designationFK = some j then [base] else []) :
            List ℕ).count (base + (m + 1)) = 0 := by
        split_ifs with hc
        · simp only [List.count_eq_zero, List.mem_singleton]
          omega
        · simp
      rw [h0]
      have h1 := ih (base + 1) m a (by simpa using hget)
      have : base + 1 + m = base + (m + 1) := by omega
      rw [this] at h1
      omega

lemma mkDatabase_neosArr_get? (neos : List NearEarthObject)
    (approaches : List CloseApproach) (j : ℕ) :
    (mkDatabase neos approaches).neosArr.get? j
      = (neos.get? j).map (fun neo =>
          { neo with approaches := (neo.approaches
              ++ matchedIdx (create_neo_designation_index_map neos) j 0
                  approaches) }) := by
  simpa [mkDatabase]
    using linkLoop_fst_get? (create_neo_designation_index_map neos)
      approaches neos [] j

lemma mkDatabase_approachesArr (neos : List NearEarthObject)
    (approaches : List CloseApproach) :
    (mkDatabase neos approaches).approachesArr
      = approaches.map (linkApproach (create_neo_designation_index_map neos)) := by
  simpa [mkDatabase]
    using linkLoop_snd (create_neo_designation_index_map neos)
      approaches neos []

lemma mkDatabase_map_designation (neos : List NearEarthObject)
    (approaches : List CloseApproach) :
    (mkDatabase neos approaches).neosArr.map (fun neo => neo.designation)
      = neos.map (fun neo => neo.designation) := by
  apply List.ext
  intro n
  rw [List.get?_map, List.get?_map, mkDatabase_neosArr_get?]
  cases neos.get? n <;> simp

/-- C6: after Store construction, an Approach whose foreign-key designation
hits the designation index (equivalently, matches a known Object —
first conjunct) carries a non-absent reference to the Object the index
resolves, that Object's designation equals the Approach's foreign key, and
that Object's `approaches` collection contains the Approach's handle
exactly once; an Approach whose designation misses the index is left
untouched, its reference still absent.  Preconditions as in the source
constructor's contract: collections arrive unlinked. -/
theorem linking_invariant (neos : List NearEarthObject)
    (approaches : List CloseApproach)
    (hn : ∀ neo ∈ neos, neo.approaches = [])
    (ha : ∀ a ∈ approaches, a.neo = none) :
    (∀ d : Option String,
        (dictGet? (create_neo_designation_index_map neos) d).isSome
          ↔ d ∈ neos.map (fun neo => neo.designation))
      ∧ (∀ (i : ℕ) (a : CloseApproach), approaches.get? i = some a →
          (∀ j, dictGet? (create_neo_designation_index_map neos)
              a.designationFK = some j →
            ∃ neo2,
              (mkDatabase neos approaches).neosArr.get? j = some neo2
                ∧ (mkDatabase neos approaches).approachesArr.get? i
                    = some { a with neo := some j }
                ∧ neo2.designation = a.designationFK
                ∧ neo2.approaches.count i = 1)
          ∧ (dictGet? (create_neo_designation_index_map neos)
              a.designationFK = none →
            (mkDatabase neos approaches).approachesArr.get? i = some a
              ∧ a.neo = none)) := by
  constructor
  · intro d
    constructor
    · intro h
      cases hd : dictGet? (create_neo_designation_index_map neos) d with
      | none => rw [hd] at h; simp at h
      | some j =>
        obtain ⟨k, neo, hget, hkey, -⟩ := dictGet?_mem _ neos 0 d j hd
        exact List.mem_map.mpr ⟨neo, List.get?_mem hget, hkey⟩
    · intro h
      exact dictGet?_mem_isSome _ neos 0 d h
  · intro i a hget
    constructor
    · intro j hj
      obtain ⟨k, neo, hgetn, hkey, hk0⟩ := dictGet?_mem _ neos 0 _ j hj
      have hkj : k = j := by omega
      subst hkj
      refine ⟨{ neo with approaches := (neo.approaches
          ++ matchedIdx (create_neo_designation_index_map neos) k 0
              approaches) }, ?_, ?_, ?_, ?_⟩
      · rw [mkDatabase_neosArr_get?, hgetn]
        rfl
      · rw [mkDatabase_approachesArr, List.get?_map, hget]
        simp [linkApproach, hj]
      · exact hkey
      · have hmem : neo ∈ neos := List.get?_mem hgetn
        show (neo.approaches
          ++ matchedIdx (create_neo_designation_index_map neos) k 0
              approaches).count i = 1
        rw [hn neo hmem, List.nil_append]
        have := matchedIdx_count (create_neo_designation_index_map neos) k
          approaches 0 i a hget
        simpa [hj] using this
    · intro hnone
      constructor
      · rw [mkDatabase_approachesArr, List.get?_map, hget]
        simp [linkApproach, hnone]
      · exact ha a (List.get?_mem hget)

/-- C7: in a Store whose Objects carry pairwise-distinct designations,
looking up any stored Object's own designation returns exactly that Object,
and looking up a designation held by no Object returns not-found. -/
theorem designation_lookup_roundtrip (neos : List NearEarthObject)
    (approaches : List CloseApproach)
    (hd : (neos.map (fun neo => neo.designation)).Nodup) :
    (∀ (j : ℕ) (neo2 : NearEarthObject),
        (mkDatabase neos approaches).neosArr.get? j = some neo2 →
        get_neo_by_designation (mkDatabase neos approaches) neo2.designation
          = some neo2)
      ∧ (∀ d : Option String,
          d ∉ (mkDatabase neos approaches).neosArr.map
              (fun neo => neo.designation) →
          get_neo_by_designation (mkDatabase neos approaches) d = none) := by
  constructor
  · intro j neo2 hget2
    rw [mkDatabase_neosArr_get?] at hget2
    cases hgetn : neos.get? j with
    | none => rw [hgetn] at hget2; cases hget2
    | some neo =>
      rw [hgetn] at hget2
      cases hget2
      have hmap := dictGet?_nodup (fun neo => neo.designation) neos 0 j neo
        hd hgetn
      rw [Nat.zero_add] at hmap
      show get_neo_by_designation (mkDatabase neos approaches)
        neo.designation = _
      unfold get_neo_by_designation
      have hfield : (mkDatabase neos approaches).designation_index_map
          = create_neo_designation_index_map neos := rfl
      rw [hfield]
      rw [show create_neo_designation_index_map neos
        = buildIdxMap (fun neo => neo.designation) 0 neos from rfl, hmap]
      show (mkDatabase neos approaches).neosArr.get? j = _
      rw [mkDatabase_neosArr_get?, hgetn]
      rfl
  · intro d hdnot
    rw [mkDatabase_map_designation] at hdnot
    unfold get_neo_by_designation
    have hfield : (mkDatabase neos approaches).designation_index_map
        = create_neo_designation_index_map neos := rfl
    rw [hfield]
    rw [show create_neo_designation_index_map neos
      = buildIdxMap (fun neo => neo.designation) 0 neos from rfl]
    rw [dictGet?_not_mem (fun neo => neo.designation) neos 0 d hdnot]

/-- C5 witness: the amended theorem applied to the concrete store `dbC5`
and the concrete non-empty filter list `fsC5`. -/
theorem query_filters_amended_w :
    (fsC5 ≠ [])
      ∧ (queryList dbC5 fsC5
          = dbC5.approachesArr.filter (fun a => fsC5.all (fun f => f a))
        ∧ (∀ a ∈ queryList dbC5 fsC5, ∀ f ∈ fsC5, f a = true)
        ∧ (∀ a ∈ dbC5.approachesArr, a ∉ queryList dbC5 fsC5 →
            ∃ f ∈ fsC5, f a = false)
        ∧ (queryList dbC5 fsC5).Sublist (queryList dbC5 [])
        ∧ (∀ (a : CloseApproach) (i : ℕ) (hi : i < fsC5.length),
            (∀ k (hk : k < i), fsC5.get ⟨k, Nat.lt_trans hk hi⟩ a = true) →
            fsC5.get ⟨i, hi⟩ a = false → filterEvalCount a fsC5 = i + 1)) :=
  ⟨List.cons_ne_nil _ _,
   query_filters_amended dbC5 fsC5 (List.cons_ne_nil _ _)⟩

/-- C9: serialization succeeds for an unlinked Approach, substituting the
defaults for the missing Object's slots — empty string for the name, the
`"nan"` sentinel for the diameter, and the false flag (`"False"`, the
string rendering of the boolean) for hazardous; for a linked Approach the
same slots carry the associated Object's name (empty string when absent),
its diameter value, and the string rendering of its hazardous flag. -/
theorem serialize_defaults (ca : CloseApproach) (t : String) (dist vel : PyFloat)
    (des : String) (ht : ca.time = some t) (hdist : ca.distance = some dist)
    (hvel : ca.velocity = some vel) (hdes : ca.designationFK = some des) :
    serializeCA ca none
        = some
          { datetime_utc := datetime_to_str t
            distance_au := dist
            velocity_km_s := vel
            designationOut := des
            neoKey := false
            nameOut := ""
            diameterOut := SVal.str "nan"
            hazardousOut := "False" }
      ∧ (∀ (neo : NearEarthObject) (d : PyFloat), neo.diameter = some d →
          serializeCA ca (some neo)
            = some
              { datetime_utc := datetime_to_str t
                distance_au := dist
                velocity_km_s := vel
                designationOut := des
                neoKey := true
                nameOut := match neo.name with | some n => n | none => ""
                diameterOut := SVal.flt d
                hazardousOut := pyStrBool neo.hazardous }) := by
  constructor
  · simp [serializeCA, ht, hdist, hvel, hdes]
  · intro neo d hdiam
    simp [serializeCA, ht, hdist, hvel, hdes, hdiam]

/-- The concrete approach and Object used by the C9 witness. -/
def caC9 : CloseApproach :=
  { designationFK := some "433"
    time := some "2020-Jan-01 06:00"
    distance := some (PyFloat.val (3 / 20))
    velocity := some (PyFloat.val (11 / 2)) }

def neoC9 : NearEarthObject :=
  { designation := some "433", diameter := some PyFloat.nan, hazardous := true }

/-- C9 witness: the serialization theorem applied to the concrete approach
`caC9`, both unlinked and linked to the nameless, unknown-diameter,
hazardous Object `neoC9`. -/
theorem serialize_defaults_w :
    caC9.time = some "2020-Jan-01 06:00"
      ∧ (serializeCA caC9 none
          = some
            { datetime_utc := datetime_to_str "2020-Jan-01 06:00"
              distance_au := PyFloat.val (3 / 20)
              velocity_km_s := PyFloat.val (11 / 2)
              designationOut := "433"
              neoKey := false
              nameOut := ""
              diameterOut := SVal.str "nan"
              hazardousOut := "False" }
        ∧ (∀ (neo : NearEarthObject) (d : PyFloat), neo.diameter = some d →
            serializeCA caC9 (some neo)
              = some
                { datetime_utc := datetime_to_str "2020-Jan-01 06:00"
                  distance_au := PyFloat.val (3 / 20)
                  velocity_km_s := PyFloat.val (11 / 2)
                  designationOut := "433"
                  neoKey := true
                  nameOut := match neo.name with | some n => n | none => ""
                  diameterOut := SVal.flt d
                  hazardousOut := pyStrBool neo.hazardous })) :=
  ⟨rfl, serialize_defaults caC9 "2020-Jan-01 06:00" (PyFloat.val (3 / 20))
    (PyFloat.val (11 / 2)) "433" rfl rfl rfl rfl⟩

/-- The concrete unlinked collections used by the C6 witness: one Object
designated `"433"` and one Approach whose foreign key matches it. -/
def neosC6 : List NearEarthObject := [{ designation := some "433" }]

def apprC6 : List CloseApproach := [{ designationFK := some "433" }]

/-- C6 witness: the linking invariant applied to the concrete one-Object,
one-Approach store built from `neosC6` and `apprC6`. -/
theorem linking_invariant_w :
    (∀ neo ∈ neosC6, neo.approaches = [])
      ∧ (∀ a ∈ apprC6, a.neo = none)
      ∧ ((∀ d : Option String,
            (dictGet? (create_neo_designation_index_map neosC6) d).isSome
              ↔ d ∈ neosC6.map (fun neo => neo.designation))
        ∧ (∀ (i : ℕ) (a : CloseApproach), apprC6.get? i = some a →
            (∀ j, dictGet? (create_neo_designation_index_map neosC6)
                a.designationFK = some j →
              ∃ neo2,
                (mkDatabase neosC6 apprC6).neosArr.get? j = some neo2
                  ∧ (mkDatabase neosC6 apprC6).approachesArr.get? i
                      = some { a with neo := some j }
                  ∧ neo2.designation = a.designationFK
                  ∧ neo2.approaches.count i = 1)
            ∧ (dictGet? (create_neo_designation_index_map neosC6)
                a.designationFK = none →
              (mkDatabase neosC6 apprC6).approachesArr.get? i = some a
                ∧ a.neo = none))) :=
  ⟨by decide, by decide,
   linking_invariant neosC6 apprC6 (by decide) (by decide)⟩

/-- The concrete Objects used by the C7 witness: two Objects with distinct
designations. -/
def neosC7 : List NearEarthObject :=
  [{ designation := some "433" }, { designation := some "1036" }]

/-- C7 witness: the lookup round trip applied to the concrete store built
from `neosC7` (designations pairwise distinct) with no approaches. -/
theorem designation_lookup_roundtrip_w :
    (neosC7.map (fun neo => neo.designation)).Nodup
      ∧ ((∀ (j : ℕ) (neo2 : NearEarthObject),
            (mkDatabase neosC7 []).neosArr.get? j = some neo2 →
            get_neo_by_designation (mkDatabase neosC7 []) neo2.designation
              = some neo2)
        ∧ (∀ d : Option String,
            d ∉ (mkDatabase neosC7 []).neosArr.map
                (fun neo => neo.designation) →
            get_neo_by_designation (mkDatabase neosC7 []) d = none)) :=
  ⟨by decide, designation_lookup_roundtrip neosC7 [] (by decide)⟩
